import Mathlib

/-!
Verification of the costbench-api extraction-and-normalization pipeline
(`app.py`): the number parser `try_number`, the label classifier
`normalize_label` over the ordered rule list `LABEL_MAP`, the tabular
extractor `extract_from_excel` (column picking via `col_like`), the
unstructured-text extractor `extract_from_pdf` (modelled on the extracted
text, since `pdfplumber` is an external collaborator), and the
aggregator `write_workbook`.

Machine floats are modelled as rationals; Python `None` as `Option.none`;
spreadsheet cells (decoded by the external `pandas` collaborator) as
optional strings keyed by column name.  Python regular expressions over the
relevant patterns are embedded either by Brzozowski-derivative matching of
an explicit regex AST (for the `LABEL_MAP` rules, all of the shape
`\b(...)\b`) or by direct scanners that mirror the pattern semantics.
Character classes (`\w`, `\s`, `\d`, lower-casing) are modelled over ASCII
plus the accented Latin letters appearing in the rule patterns.
-/

namespace CostBench

/-! ## Character-level helpers (Python `\w`, `\s`, `str.lower`) -/

/-- Accented Latin letters treated as word characters, mirroring Python
Unicode `\w` on the alphabet relevant to the rule patterns. -/
def accentedChars : List Char :=
  ['é', 'è', 'ê', 'à', 'â', 'û', 'ô', 'î', 'ï', 'ç', 'ù',
   'É', 'È', 'Ê', 'À', 'Â', 'Û', 'Ô', 'Î', 'Ï', 'Ç', 'Ù',
   'ö', 'ü', 'ä', 'Ö', 'Ü', 'Ä']

/-- Python regex word character (`\w`): alphanumeric, underscore, or an
accented letter of the modelled alphabet. -/
def isWordChar (c : Char) : Bool :=
  c.isAlphanum || c == '_' || accentedChars.contains c

/-- Python regex whitespace (`\s`) over the modelled alphabet: ASCII
whitespace plus the no-break space. -/
def isSpaceCh (c : Char) : Bool :=
  c == ' ' || c == '\t' || c == '\n' || c == '\r' || c == '\x0b' ||
  c == '\x0c' || c == '\u00A0'

/-- Python `str.lower` over the modelled alphabet: ASCII lower-casing plus
the accented uppercase letters used by the rule patterns. -/
def lowerChar (c : Char) : Char :=
  if c == 'É' then 'é' else if c == 'È' then 'è' else if c == 'Ê' then 'ê'
  else if c == 'À' then 'à' else if c == 'Â' then 'â'
  else if c == 'Û' then 'û' else if c == 'Ô' then 'ô'
  else if c == 'Î' then 'î' else if c == 'Ï' then 'ï'
  else if c == 'Ç' then 'ç' else if c == 'Ù' then 'ù'
  else c.toLower

/-- Lower-case a character list. -/
def lowerL (s : List Char) : List Char := s.map lowerChar

/-- Python `str.strip()`: drop leading and trailing whitespace. -/
def pyStrip (s : List Char) : List Char :=
  ((s.dropWhile isSpaceCh).reverse.dropWhile isSpaceCh).reverse

/-! ## Number parser (`try_number`, app.py lines 59-66) -/

/-- The three separator characters removed everywhere by
`replace(" ","").replace(",","").replace(" ","")`. -/
def stripSeps (s : List Char) : List Char :=
  s.filter (fun c => !(c == ' ' || c == ',' || c == '\u00A0'))

/-- Removal of every parenthesis, `s.replace("(", "").replace(")", "")`. -/
def stripParens (s : List Char) : List Char :=
  s.filter (fun c => !(c == '(' || c == ')'))

/-- The shape check `re.match(r"^-?\d+(\.\d+)?$", s)`: an optional leading
minus, one or more digits, optionally a decimal point and one or more
digits, and nothing else — except that Python's `$` anchor also matches
just before a single trailing newline, so one final `'\n'` is accepted
(reachable only inside parentheses, since `strip()` removes edge
whitespace). -/
def numShape (s : List Char) : Bool :=
  let sa := if s.getLast? == some '\n' then s.dropLast else s
  let s1 := match sa with
    | '-' :: rest => rest
    | _ => sa
  let d1 := s1.takeWhile (fun c => c.isDigit)
  let r1 := s1.drop d1.length
  if d1.isEmpty then false
  else match r1 with
    | [] => true
    | '.' :: r2 =>
        let d2 := r2.takeWhile (fun c => c.isDigit)
        !d2.isEmpty && (r2.drop d2.length).isEmpty
    | _ => false

/-- Value of a digit run as a natural number. -/
def digitsVal (ds : List Char) : Nat :=
  ds.foldl (fun n c => 10 * n + (c.toNat - 48)) 0

/-- `float(s)` on a string that passed `numShape`: the exact decimal value
`intpart.fracpart`, i.e. `(intpart * 10^k + fracpart) / 10^k` for a
`k`-digit fractional part. -/
def numVal (s : List Char) : ℚ :=
  let p := match s with
    | '-' :: rest => (true, rest)
    | _ => (false, s)
  let d1 := p.2.takeWhile (fun c => c.isDigit)
  let r1 := p.2.drop d1.length
  let v : ℚ := match r1 with
    | '.' :: r2 =>
        let d2 := r2.takeWhile (fun c => c.isDigit)
        mkRat (digitsVal d1 * 10 ^ d2.length + digitsVal d2) (10 ^ d2.length)
    | _ => (digitsVal d1 : ℚ)
  if p.1 then -v else v

/-- Shape-checked parse: `float(s)` guarded by the `re.match`. -/
def parseNum (s : List Char) : Option ℚ :=
  if numShape s then some (numVal s) else none

/-- `try_number` (app.py lines 59-66): `None` propagates; otherwise strip
outer whitespace, remove spaces, commas and no-break spaces, detect the
accounting-negative `( ... )` wrapping, remove all parentheses, validate
the numeric shape, and parse, negating under the parenthesis flag. -/
def try_number : Option String → Option ℚ
  | none => none
  | some x =>
    let s := stripSeps (pyStrip x.data)
    let neg := (s.head? == some '(') && (s.getLast? == some ')')
    match parseNum (stripParens s) with
    | none => none
    | some v => some (if neg then -v else v)

/-! ## Regular-expression engine (Brzozowski derivatives)

Every rule pattern of `LABEL_MAP` has the shape `\b(ALT)\b`, where `ALT`
is an alternation of branches built from literal characters, small
character classes, optional groups, and the starred classes `[& ]*` /
`\s*`; every branch starts and ends with a word character.  `re.search`
of such a pattern succeeds on `s` exactly when some slice of `s` is
matched by `ALT` and the characters adjacent to the slice (when they
exist) are non-word characters. -/

inductive RE where
  | emp : RE
  | eps : RE
  | cls : (Char → Bool) → RE
  | cat : RE → RE → RE
  | alt : RE → RE → RE
  | star : RE → RE

/-- Does the regex accept the empty string? -/
def nullable : RE → Bool
  | .emp => false
  | .eps => true
  | .cls _ => false
  | .cat a b => nullable a && nullable b
  | .alt a b => nullable a || nullable b
  | .star _ => true

/-- Brzozowski derivative with respect to one character. -/
def deriv : RE → Char → RE
  | .emp, _ => .emp
  | .eps, _ => .emp
  | .cls p, c => if p c then .eps else .emp
  | .cat a b, c =>
      if nullable a then .alt (.cat (deriv a c) b) (deriv b c)
      else .cat (deriv a c) b
  | .alt a b, c => .alt (deriv a c) (deriv b c)
  | .star a, c => .cat (deriv a c) (.star a)

/-- Whole-string match via derivatives. -/
def reMatch (r : RE) (s : List Char) : Bool :=
  nullable (s.foldl deriv r)

/-- Single-character regex. -/
def chr (c : Char) : RE := .cls (fun d => d == c)

/-- Character-class regex from an explicit list. -/
def oneOf (cs : List Char) : RE := .cls (fun d => cs.contains d)

/-- Literal word as a regex. -/
def lit (cs : List Char) : RE := cs.foldr (fun c r => .cat (chr c) r) .eps

/-- Literal string as a regex. -/
def strRE (s : String) : RE := lit s.data

/-- Alternation of a list of branches. -/
def altL : List RE → RE
  | [] => .emp
  | [r] => r
  | r :: rest => .alt r (altL rest)

/-- Optional group `(...)?`. -/
def reOpt (r : RE) : RE := .alt r .eps

/-- Non-word character at the position just before index `i` of `s`
(start of string counts as a boundary). -/
def prevNonWord (s : List Char) (i : Nat) : Bool :=
  match i with
  | 0 => true
  | Nat.succ j =>
      match s[j]? with
      | none => true
      | some c => !isWordChar c

/-- `re.search` of `\b(r)\b` on `s`, for `r` whose matches start and end
with word characters: some slice of `s` matches `r` and both neighbours
of the slice, when present, are non-word characters. -/
def searchBdry (r : RE) (s : List Char) : Bool :=
  (List.range (s.length + 1)).any (fun i =>
    prevNonWord s i &&
    (List.range (s.length + 1 - i)).any (fun n =>
      reMatch r ((s.drop i).take n) &&
      (match s[i + n]? with
       | none => true
       | some c => !isWordChar c)))

/-! ## The classifier rule list (`LABEL_MAP`, app.py lines 32-44) -/

/-- The apostrophe character, used inside two French rule patterns. -/
def apos : Char := Char.ofNat 39

/-- `\b(advertis|marketing|media|pub(licit[eé])?)\b`. -/
def pat1 : RE :=
  altL [strRE "advertis", strRE "marketing", strRE "media",
        .cat (strRE "pub") (reOpt (.cat (strRE "licit") (oneOf ['e', 'é'])))]

/-- `\b(g[& ]*a|frais\s*g[ée]n[ée]raux|administrative)\b`. -/
def pat2 : RE :=
  altL [.cat (chr 'g') (.cat (.star (oneOf ['&', ' '])) (chr 'a')),
        .cat (strRE "frais")
          (.cat (.star (.cls isSpaceCh))
            (.cat (chr 'g')
              (.cat (oneOf ['é', 'e'])
                (.cat (chr 'n') (.cat (oneOf ['é', 'e']) (strRE "raux")))))),
        strRE "administrative"]

/-- `\b(r&d|recherche|entwicklung|research)\b`. -/
def pat3 : RE :=
  altL [strRE "r&d", strRE "recherche", strRE "entwicklung", strRE "research"]

/-- `\b(cost of sales|co[uû]t des ventes|cogs)\b`. -/
def pat4 : RE :=
  altL [strRE "cost of sales",
        .cat (strRE "co") (.cat (oneOf ['u', 'û']) (strRE "t des ventes")),
        strRE "cogs"]

/-- `\b(materials|mati[eè]res)\b`. -/
def pat5 : RE :=
  altL [strRE "materials",
        .cat (strRE "mati") (.cat (oneOf ['e', 'è']) (strRE "res"))]

/-- `\b(direct labor|main d'?oeuvre|personnel direct)\b`. -/
def pat6 : RE :=
  altL [strRE "direct labor",
        .cat (strRE "main d") (.cat (reOpt (chr apos)) (strRE "oeuvre")),
        strRE "personnel direct"]

/-- `\b(services? achet[ée]s|purchased services)\b`. -/
def pat7 : RE :=
  altL [.cat (strRE "service")
          (.cat (reOpt (chr 's'))
            (.cat (strRE " achet") (.cat (oneOf ['é', 'e']) (chr 's')))),
        strRE "purchased services"]

/-- `\b(revenue|chiffre d'affaires|sales)\b`. -/
def pat8 : RE :=
  altL [strRE "revenue",
        .cat (strRE "chiffre d") (.cat (chr apos) (strRE "affaires")),
        strRE "sales"]

/-- `\b(depreciation|amortissement technique)\b`. -/
def pat9 : RE :=
  altL [strRE "depreciation", strRE "amortissement technique"]

/-- `\b(amortization|amortissement incorporel)\b`. -/
def pat10 : RE :=
  altL [strRE "amortization", strRE "amortissement incorporel"]

/-- `\b(taxes?|imp[oô]ts?)\b`. -/
def pat11 : RE :=
  altL [.cat (strRE "taxe") (reOpt (chr 's')),
        .cat (strRE "imp")
          (.cat (oneOf ['o', 'ô']) (.cat (chr 't') (reOpt (chr 's'))))]

/-- The ordered classifier rule list `LABEL_MAP` (app.py lines 32-44). -/
def LABEL_MAP : List (RE × String) :=
  [(pat1, "OpEx | Sales & Marketing | Media/Ads"),
   (pat2, "OpEx | General & Administrative | People"),
   (pat3, "OpEx | Research & Development | People"),
   (pat4, "COGS | Other COGS"),
   (pat5, "COGS | Materials"),
   (pat6, "COGS | Direct Labor"),
   (pat7, "COGS | Purchased Services"),
   (pat8, "Revenue | Product"),
   (pat9, "Depreciation"),
   (pat10, "Amortization"),
   (pat11, "Tax | Current")]

/-- First-match loop of `normalize_label` over the ordered rule list. -/
def firstMatch : List (RE × String) → List Char → Option String
  | [], _ => none
  | (p, f) :: rest, low =>
      if searchBdry p low then some f else firstMatch rest low

/-- `normalize_label` (app.py lines 68-73): empty labels map to `None`;
otherwise the first rule of `LABEL_MAP` whose pattern is found in the
lower-cased label wins. -/
def normalize_label (label : String) : Option String :=
  if label = "" then none
  else firstMatch LABEL_MAP (lowerL label.data)

/-! ## Canonical row schema (`FIXED_ROWS`, app.py lines 17-30) -/

/-- The fixed canonical line-item list, order significant. -/
def FIXED_ROWS : List String :=
  ["Revenue | Product", "Revenue | Services", "Revenue | Other Operating Revenue",
   "COGS | Materials", "COGS | Direct Labor", "COGS | Purchased Services", "COGS | Other COGS",
   "Gross Profit (derived)",
   "OpEx | Sales & Marketing | People", "OpEx | Sales & Marketing | Media/Ads",
   "OpEx | Sales & Marketing | Agencies", "OpEx | Sales & Marketing | Events",
   "OpEx | Sales & Marketing | Software/Tools",
   "OpEx | General & Administrative | People", "OpEx | General & Administrative | Facilities",
   "OpEx | General & Administrative | Professional Services",
   "OpEx | General & Administrative | IT/Software", "OpEx | General & Administrative | Travel",
   "OpEx | General & Administrative | Other G&A",
   "OpEx | Research & Development | People", "OpEx | Research & Development | Contractors",
   "OpEx | Research & Development | Cloud/Compute",
   "OpEx | Research & Development | Labs/Prototyping", "OpEx | Research & Development | Other R&D",
   "Depreciation", "Amortization",
   "Other Operating | Grants/Subsidies", "Other Operating | Gains/Losses on Disposals",
   "Other Operating | Restructuring",
   "Operating Profit (EBIT) (derived)",
   "Below Operating | Net Interest", "Below Operating | FX Gains/Losses",
   "Below Operating | Associates/JVs",
   "Tax | Current", "Tax | Deferred",
   "Net Income (derived)"]

/-! ## Data model: one normalized observation (`ClassifiedRow`) -/

/-- One classified row as built by the extractors (app.py lines 95-102 and
120-127).  `amount` is `none` for the Python not-a-number sentinel. -/
structure ClassifiedRow where
  company_name : String
  fiscal_year : String
  reporting_currency : String
  base_currency : String
  line_item : String
  amount : Option ℚ
deriving DecidableEq, Repr

/-- `Path(fname).stem`: the part after the last slash, with the final
dot-suffix removed unless it would leave an empty name. -/
def stem (fname : String) : String :=
  let base := (fname.data.reverse.takeWhile (fun c => c ≠ '/')).reverse
  let rev := base.reverse
  let suf := rev.takeWhile (fun c => c ≠ '.')
  if suf.length = base.length then String.mk base
  else
    let pre := (rev.drop (suf.length + 1)).reverse
    if pre.isEmpty then String.mk base else String.mk pre

/-- Resolution of `base_currency` (app.py lines 99 and 124): the caller
override wins when it is non-empty and not the literal sentinel `"NONE"`,
otherwise the detected currency is used. -/
def resolveBase (base : Option String) (ccy : String) : String :=
  match base with
  | none => ccy
  | some b => if b = "" ∨ b = "NONE" then ccy else b

/-! ## Tabular extractor (`extract_from_excel`, app.py lines 75-103) -/

/-- Python `in` on strings: `needle` occurs as a contiguous substring of
`hay` (the empty needle occurs everywhere). -/
def containsSub (needle : List Char) : List Char → Bool
  | [] => needle.isEmpty
  | c :: rest => needle.isPrefixOf (c :: rest) || containsSub needle rest

/-- `str(c).strip().lower()` applied to a column name. -/
def normCol (c : String) : List Char := lowerL (pyStrip c.data)

/-- Inner loop of `col_like`: the first column (in column order) whose
normalised name contains the synonym `k` as a substring. -/
def findColFor (k : String) : List String → Option String
  | [] => none
  | c :: rest =>
      if containsSub k.data (normCol c) then some c else findColFor k rest

/-- `col_like` (app.py lines 81-85): iterate over the synonym keys in
order; for the first key contained in some column name, return the first
such column; `None` when no key is contained anywhere. -/
def col_like (cols : List String) : List String → Option String
  | [] => none
  | k :: ks =>
      match findColFor k cols with
      | some c => some c
      | none => col_like cols ks

/-- One decoded table: the external `pandas` collaborator delivers named
columns and rows of cells; a cell is `none` when missing. -/
structure Sheet where
  cols : List String
  data : List (List (String × Option String))
deriving Repr

/-- `r.get(col, None)` on a decoded row, with an optional column. -/
def rGet (row : List (String × Option String)) (col : Option String) :
    Option String :=
  match col with
  | none => none
  | some c => (row.find? (fun p => p.1 == c)).bind Prod.snd

/-- Body of the per-row loop of `extract_from_excel` (app.py lines
90-102): classify the label cell, skip unclassifiable rows, and otherwise
emit a `ClassifiedRow` whose amount is the (possibly failed) parse of the
amount cell. -/
def processExcelRow (fname : String) (base : Option String)
    (cl ca cy cc : Option String)
    (row : List (String × Option String)) : Option ClassifiedRow :=
  match normalize_label ((rGet row cl).getD "") with
  | none => none
  | some fixed =>
      let yr := match cy with
        | none => ""
        | some _ => (rGet row cy).getD ""
      let ccv := match cc with
        | none => ""
        | some _ => (rGet row cc).getD ""
      some { company_name := stem fname
           , fiscal_year := yr
           , reporting_currency := ccv
           , base_currency := resolveBase base ccv
           , line_item := fixed
           , amount := try_number (rGet row ca) }

/-- Per-sheet processing of `extract_from_excel`: locate the four role
columns with `col_like`, then filter-map the rows. -/
def processSheet (fname : String) (base : Option String) (sh : Sheet) :
    List ClassifiedRow :=
  let cl := col_like sh.cols ["label", "item", "intitul", "description", "account"]
  let ca := col_like sh.cols ["amount", "montant", "value", "valeur", "total"]
  let cy := col_like sh.cols ["year", "exercice", "fy", "fiscal"]
  let cc := col_like sh.cols ["curr", "devise", "currency"]
  sh.data.filterMap (processExcelRow fname base cl ca cy cc)

/-- `extract_from_excel` (app.py lines 75-103) on the decoded workbook:
sheets are processed independently and their rows concatenated. -/
def extract_from_excel (sheets : List Sheet) (fname : String)
    (base : Option String) : List ClassifiedRow :=
  (sheets.map (processSheet fname base)).flatten

/-! ## Text extractor (`extract_from_pdf`, app.py lines 105-128)

`pdfplumber` is an external collaborator: the model takes the already
extracted page text (pages joined with newlines) as its input. -/

/-- `prevNonWord` as a predicate on an optional preceding character. -/
def prevOkB : Option Char → Bool
  | none => true
  | some p => !isWordChar p

/-- Occurrence scan for a branch `\bW` of an alternation: does `w` occur
in the scanned suffix at a position whose preceding character (tracked in
`prev`) is absent or a non-word character? -/
def occLB (w : List Char) : Option Char → List Char → Bool
  | prev, [] => prevOkB prev && w.isEmpty
  | prev, c :: rest =>
      (prevOkB prev && w.isPrefixOf (c :: rest)) || occLB w (some c) rest

/-- Occurrence scan for a branch `C\b` with `C` a non-word character: does
`ch` occur immediately followed by a word character?  (`\b` right after a
non-word character requires a word character next.) -/
def hasCharThenWord (ch : Char) : List Char → Bool
  | [] => false
  | [_] => false
  | a :: b :: rest =>
      (a == ch && isWordChar b) || hasCharThenWord ch (b :: rest)

/-- What may follow a match of `dollars?\b`: end of string, an `s` that is
itself followed by a boundary, or directly a non-word character. -/
def dollarSuffixOk : List Char → Bool
  | [] => true
  | 's' :: rest =>
      match rest with
      | [] => true
      | d :: _ => !isWordChar d
  | d :: _ => !isWordChar d

/-- Occurrence scan for the branch `dollars?\b`. -/
def dollarHit : List Char → Bool
  | [] => false
  | c :: rest =>
      (("dollar".data.isPrefixOf (c :: rest)) &&
        dollarSuffixOk ((c :: rest).drop 6)) || dollarHit rest

/-- `re.search(r"\bUSD|\$|US\$|dollars?\b", text, re.I)` on the
lower-cased text: the alternation binds loosest, so the branches are
`\bUSD`, `\$` (anywhere), `US\$` (anywhere) and `dollars?\b`. -/
def usdHit (low : List Char) : Bool :=
  occLB "usd".data none low || low.contains '$' ||
  containsSub "us$".data low || dollarHit low

/-- `re.search(r"\bEUR|€\b", text, re.I)`: branches `\bEUR` and `€\b`. -/
def eurHit (low : List Char) : Bool :=
  occLB "eur".data none low || hasCharThenWord '€' low

/-- `re.search(r"\bGBP|£\b", text, re.I)`: branches `\bGBP` and `£\b`. -/
def gbpHit (low : List Char) : Bool :=
  occLB "gbp".data none low || hasCharThenWord '£' low

/-- The single document-level reporting-currency guess (app.py line 109). -/
def rep_ccy (text : String) : String :=
  let low := lowerL text.data
  if usdHit low then "USD"
  else if eurHit low then "EUR"
  else if gbpHit low then "GBP"
  else ""

/-- Separator class `[\s:\-]` of the line-splitting pattern. -/
def isSepCh (c : Char) : Bool := isSpaceCh c || c == ':' || c == '-'

/-- Numeric-segment class `[\(\)\-\d\s,\.]` of the line-splitting
pattern. -/
def isNumCh (c : Char) : Bool :=
  c == '(' || c == ')' || c == '-' || c.isDigit || isSpaceCh c ||
  c == ',' || c == '.'

/-- Greedy-with-backtracking separator run: try `s` separator characters
first (the caller starts at the maximal run length), then shorter runs,
returning the first remainder that is a non-empty all-numeric-class
suffix. -/
def sepTry (r : List Char) : Nat → Option (List Char)
  | 0 => none
  | Nat.succ s =>
      let n := r.drop (s + 1)
      if !n.isEmpty && n.all isNumCh then some n else sepTry r s

/-- `re.search(r"(.*?)[\s:\-]+([\(\)\-\d\s,\.]+)$", line)` (app.py line
113): the match always starts at position 0 and runs to the end of the
line; the lazy group 1 takes the shortest prefix for which the rest
splits as a non-empty separator run followed by a non-empty trailing
numeric segment; for that prefix the separator run is greedy.  Returns
`(group 1, group 2)`. -/
def lineSplit (l : List Char) : Option (List Char × List Char) :=
  (List.range (l.length + 1)).findSome? (fun p =>
    let rest := l.drop p
    match sepTry rest (rest.takeWhile isSepCh).length with
    | some n => some (l.take p, n)
    | none => none)

/-- Body of the per-line loop of `extract_from_pdf` (app.py lines
110-127): strip the line, skip blank lines and lines not matching the
split pattern, classify the label segment (skip if unclassified), parse
the numeric segment (skip if not a number), else emit a row carrying the
document-level currency guess. -/
def processLine (fname : String) (base : Option String) (ccy : String)
    (line : String) : Option ClassifiedRow :=
  let l := pyStrip line.data
  if l.isEmpty then none
  else
    match lineSplit l with
    | none => none
    | some (lab, num) =>
        match normalize_label (String.mk lab) with
        | none => none
        | some fixed =>
            match try_number (some (String.mk num)) with
            | none => none
            | some amt =>
                some { company_name := stem fname
                     , fiscal_year := ""
                     , reporting_currency := ccy
                     , base_currency := resolveBase base ccy
                     , line_item := fixed
                     , amount := some amt }

/-- `text.splitlines()` on the newline-joined page text: split at each
newline character. -/
def splitLinesL : List Char → List (List Char)
  | [] => [[]]
  | c :: rest =>
      let r := splitLinesL rest
      if c == '\n' then [] :: r
      else
        match r with
        | [] => [[c]]
        | l :: ls => (c :: l) :: ls

/-- `extract_from_pdf` (app.py lines 105-128) on the extracted text:
detect the document currency once, then filter-map the lines. -/
def extract_from_text (text fname : String) (base : Option String) :
    List ClassifiedRow :=
  (splitLinesL text.data).filterMap
    (fun l => processLine fname base (rep_ccy text) (String.mk l))

/-! ## Aggregator / reporter (`write_workbook`, app.py lines 130-159) -/

/-- The grouping key: `r["company_name"] or "Company"`. -/
def groupKey (r : ClassifiedRow) : String :=
  if r.company_name = "" then "Company" else r.company_name

/-- `by_co.setdefault(key, []).append(r)`: append `r` to the group with
key `k`, creating the group at the end when absent (Python dicts keep
insertion order). -/
def addToGroups (gs : List (String × List ClassifiedRow)) (k : String)
    (r : ClassifiedRow) : List (String × List ClassifiedRow) :=
  match gs with
  | [] => [(k, [r])]
  | (k0, rs) :: rest =>
      if k0 = k then (k0, rs ++ [r]) :: rest
      else (k0, rs) :: addToGroups rest k r

/-- Grouping of all rows by company (app.py lines 131-133). -/
def by_co (rows : List ClassifiedRow) : List (String × List ClassifiedRow) :=
  rows.foldl (fun gs r => addToGroups gs (groupKey r) r) []

/-- Exact rational addition mirroring float addition, in a
kernel-computable form; shown equal to field addition in
`ratAdd_eq_add`. -/
def ratAdd (a b : ℚ) : ℚ :=
  Rat.divInt (a.num * (b.den : ℤ) + b.num * (a.den : ℤ))
    ((a.den : ℤ) * (b.den : ℤ))

/-- `total_rev` (app.py line 141): the generator sum over the company's
rows whose `line_item` starts with `"Revenue"`, with `i.get("amount") or
0` turning a missing amount into zero. -/
def total_rev : List ClassifiedRow → ℚ
  | [] => 0
  | i :: rest =>
      ratAdd (if "Revenue".data.isPrefixOf i.line_item.data then i.amount.getD 0 else 0)
        (total_rev rest)

/-- Python dict insertion: replace the value in place when the key is
present, else append. -/
def dictInsert (d : List (String × ClassifiedRow)) (k : String)
    (v : ClassifiedRow) : List (String × ClassifiedRow) :=
  match d with
  | [] => [(k, v)]
  | (k0, v0) :: rest =>
      if k0 = k then (k0, v) :: rest
      else (k0, v0) :: dictInsert rest k v

/-- The lookup dict `{i["line_item"]: i for i in items}` (app.py line
142): keys inserted left to right, later rows overwriting earlier ones. -/
def buildLookup (items : List ClassifiedRow) : List (String × ClassifiedRow) :=
  items.foldl (fun d i => dictInsert d i.line_item i) []

/-- `lookup.get(line, ...)`. -/
def lookupGet (d : List (String × ClassifiedRow)) (k : String) :
    Option ClassifiedRow :=
  (d.find? (fun p => p.1 == k)).map Prod.snd

/-- Exact rational division mirroring the float division `amt/total_rev`
on a non-zero denominator, in a kernel-computable form; shown equal to
field division in `ratDiv_eq_div`. -/
def ratDiv (a b : ℚ) : ℚ :=
  Rat.divInt (a.num * (b.den : ℤ)) ((a.den : ℤ) * b.num)

/-- One row of a per-company output sheet (app.py lines 148-156).
`amount` and `percent_of_revenue` are `none` where the Python code writes
the empty string. -/
structure OutRow where
  company_name : String
  fiscal_year : String
  reporting_currency : String
  base_currency : String
  line_item : String
  amount : Option ℚ
  percent_of_revenue : Option ℚ
deriving DecidableEq, Repr

/-- One output row of the loop over `FIXED_ROWS` (app.py lines 145-156):
the amount comes from the lookup (absent keys and non-numeric amounts
render blank), the percent is `amt/total_rev` guarded by the truthiness
of `total_rev` and the numeric check on `amt`, and the metadata is taken
from the first row of the company. -/
def outRowFor (meta : ClassifiedRow) (items : List ClassifiedRow)
    (line : String) : OutRow :=
  let tr := total_rev items
  let amt : Option ℚ := (lookupGet (buildLookup items) line).bind
    (fun i => i.amount)
  { company_name := meta.company_name
  , fiscal_year := meta.fiscal_year
  , reporting_currency := meta.reporting_currency
  , base_currency :=
      if meta.base_currency = "" then meta.reporting_currency
      else meta.base_currency
  , line_item := line
  , amount := amt
  , percent_of_revenue :=
      match amt with
      | some a => if tr = 0 then none else some (ratDiv a tr)
      | none => none }

/-- The per-company sheet: one output row per canonical item, in the
fixed canonical order, with metadata from `items[0]`. -/
def companySheet : List ClassifiedRow → List OutRow
  | [] => []
  | meta :: rest => FIXED_ROWS.map (outRowFor meta (meta :: rest))

/-- The characters `\ / ? * [ ] :` replaced by `_` in sheet names. -/
def badSheetChar (c : Char) : Bool :=
  c == '\\' || c == '/' || c == '?' || c == '*' || c == '[' || c == ']' ||
  c == ':'

/-- Sheet-name sanitisation (app.py line 158): replace the forbidden
characters, truncate to 31 characters, fall back to `"Company"`. -/
def sanitizeSheetName (company : String) : String :=
  let s := String.mk
    ((company.data.map (fun c => if badSheetChar c then '_' else c)).take 31)
  if s = "" then "Company" else s

/-- A row of the empty-input template sheet (app.py lines 136-138). -/
def templateRow (line : String) : OutRow :=
  { company_name := "", fiscal_year := "", reporting_currency := ""
  , base_currency := "", line_item := line, amount := none
  , percent_of_revenue := none }

/-- `write_workbook` (app.py lines 130-159) as the list of
(sheet name, sheet rows) pairs handed to the external spreadsheet
writer. -/
def write_workbook (rows : List ClassifiedRow) : List (String × List OutRow) :=
  match by_co rows with
  | [] => [("Company_Template", FIXED_ROWS.map templateRow)]
  | g :: gs =>
      ((g :: gs).map (fun pr => (sanitizeSheetName pr.1, companySheet pr.2)))

/-! ## Spec-side (declarative) formulations

These definitions follow the words of the specification, to be compared
with the code-derived definitions above. -/

/-- A concrete classified row used to witness the aggregator's fixed
output shape. -/
def c2row : ClassifiedRow :=
  { company_name := "acme", fiscal_year := "2023"
  , reporting_currency := "USD", base_currency := "USD"
  , line_item := "Depreciation", amount := some 10 }

/-- A concrete revenue row used to witness the percent-of-revenue
computation. -/
def c3rev : ClassifiedRow :=
  { company_name := "beta", fiscal_year := "", reporting_currency := ""
  , base_currency := "", line_item := "Revenue | Product"
  , amount := some 1000 }

/-- A concrete expense row used to witness the percent-of-revenue
computation. -/
def c3dep : ClassifiedRow :=
  { company_name := "beta", fiscal_year := "", reporting_currency := ""
  , base_currency := "", line_item := "Depreciation", amount := some 250 }

/-- The column selection as the specification words it: the first column
in the table's column order whose normalised name contains any of the
role's synonym substrings. -/
def col_like_spec (cols : List String) (keys : List String) : Option String :=
  cols.find? (fun c => keys.any (fun k => containsSub k.data (normCol c)))

/-- The numeric shape check as the specification words it: an optional
leading minus, one or more digits, optionally a decimal point and one or
more digits, and nothing else — with no allowance for a trailing
newline. -/
def numShapeSpec (s : List Char) : Bool :=
  let s1 := match s with
    | '-' :: rest => rest
    | _ => s
  let d1 := s1.takeWhile (fun c => c.isDigit)
  let r1 := s1.drop d1.length
  if d1.isEmpty then false
  else match r1 with
    | [] => true
    | '.' :: r2 =>
        let d2 := r2.takeWhile (fun c => c.isDigit)
        !d2.isEmpty && (r2.drop d2.length).isEmpty
    | _ => false

/-- `w` occurs in `s` as a contiguous substring. -/
def SubOcc (w s : List Char) : Prop := ∃ pre post, s = pre ++ (w ++ post)

/-- `w` occurs in `s` at a position preceded by nothing or by a non-word
character (the branch `\bW` for a word `W` starting with a word
character). -/
def LeftBdryOcc (w s : List Char) : Prop :=
  ∃ pre post, s = pre ++ (w ++ post) ∧
    ∀ c ∈ pre.getLast?, isWordChar c = false

/-- `ch` occurs in `s` immediately followed by a word character (the
branch `C\b` for a non-word character `C`). -/
def CharThenWord (ch : Char) (s : List Char) : Prop :=
  ∃ pre d post, s = pre ++ ch :: d :: post ∧ isWordChar d = true

/-- `dollar` occurs in `s` with the `s?\b` tail satisfied. -/
def DollarOcc (s : List Char) : Prop :=
  ∃ pre post, s = pre ++ ("dollar".data ++ post) ∧ dollarSuffixOk post = true

/-- Declarative form of the USD test of app.py line 109. -/
def UsdIndicated (low : List Char) : Prop :=
  LeftBdryOcc "usd".data low ∨ '$' ∈ low ∨ SubOcc "us$".data low ∨
  DollarOcc low

/-- Declarative form of the EUR test of app.py line 109. -/
def EurIndicated (low : List Char) : Prop :=
  LeftBdryOcc "eur".data low ∨ CharThenWord '€' low

/-- Declarative form of the GBP test of app.py line 109. -/
def GbpIndicated (low : List Char) : Prop :=
  LeftBdryOcc "gbp".data low ∨ CharThenWord '£' low

/-! ## Arithmetic bridges -/

theorem ratAdd_eq_add (a b : ℚ) : ratAdd a b = a + b := by
  have had : ((a.den : ℚ)) ≠ 0 := Nat.cast_ne_zero.mpr a.den_nz
  have hbd : ((b.den : ℚ)) ≠ 0 := Nat.cast_ne_zero.mpr b.den_nz
  have h1 := Rat.num_div_den a
  have h2 := Rat.num_div_den b
  calc ratAdd a b
      = ((a.num * (b.den : ℤ) + b.num * (a.den : ℤ) : ℤ) : ℚ) /
          (((a.den : ℤ) * (b.den : ℤ) : ℤ) : ℚ) := by
        rw [ratAdd, Rat.divInt_eq_div]
    _ = ((a.num : ℚ) * b.den + (a.den : ℚ) * b.num) /
          ((a.den : ℚ) * b.den) := by
        push_cast
        ring_nf
    _ = (a.num : ℚ) / a.den + (b.num : ℚ) / b.den := by
        rw [div_add_div _ _ had hbd]
    _ = a + b := by rw [h1, h2]

theorem ratDiv_eq_div (a b : ℚ) : ratDiv a b = a / b := by
  rcases eq_or_ne b 0 with rfl | hb
  · simp [ratDiv]
  · have had : ((a.den : ℚ)) ≠ 0 := Nat.cast_ne_zero.mpr a.den_nz
    have hbd : ((b.den : ℚ)) ≠ 0 := Nat.cast_ne_zero.mpr b.den_nz
    have hbn : ((b.num : ℚ)) ≠ 0 := by
      exact_mod_cast Rat.num_ne_zero.mpr hb
    have ha : ((a.num : ℚ)) = a * a.den := (div_eq_iff had).mp (Rat.num_div_den a)
    have hb2 : ((b.num : ℚ)) = b * b.den := (div_eq_iff hbd).mp (Rat.num_div_den b)
    rw [ratDiv, Rat.divInt_eq_div]
    push_cast
    rw [div_eq_div_iff (mul_ne_zero had hbn) hb, ha, hb2]
    ring

/-! ## Lemmas about the classifier -/

theorem firstMatch_eq_find? (l : List (RE × String)) (s : List Char) :
    firstMatch l s = (l.find? (fun pr => searchBdry pr.1 s)).map Prod.snd := by
  induction l with
  | nil => rfl
  | cons p rest ih =>
      cases hs : searchBdry p.1 s with
      | true => simp [firstMatch, List.find?_cons, hs]
      | false => simp [firstMatch, List.find?_cons, hs, ih]

theorem firstMatch_mem {l : List (RE × String)} {s : List Char} {f : String}
    (h : firstMatch l s = some f) : f ∈ l.map Prod.snd := by
  induction l with
  | nil => simp [firstMatch] at h
  | cons p rest ih =>
      rw [firstMatch] at h
      by_cases hs : searchBdry p.1 s
      · rw [if_pos hs] at h
        injection h with h
        simp [h]
      · rw [if_neg hs] at h
        simp [ih h]

theorem normalize_label_mem {lab : String} {f : String}
    (h : normalize_label lab = some f) : f ∈ FIXED_ROWS := by
  rw [normalize_label] at h
  by_cases he : lab = ""
  · rw [if_pos he] at h
    exact absurd h (by simp)
  · rw [if_neg he] at h
    have hmem := firstMatch_mem h
    have hsub : ∀ x ∈ LABEL_MAP.map Prod.snd, x ∈ FIXED_ROWS := by decide
    exact hsub f hmem

theorem processExcelRow_some {fname : String} {base : Option String}
    {cl ca cy cc : Option String} {row : List (String × Option String)}
    {r : ClassifiedRow}
    (h : processExcelRow fname base cl ca cy cc row = some r) :
    normalize_label ((rGet row cl).getD "") = some r.line_item ∧
    r.amount = try_number (rGet row ca) := by
  rw [processExcelRow.eq_def] at h
  split at h
  · exact absurd h (by simp)
  · rename_i f hn
    simp only [Option.some.injEq] at h
    subst h
    exact ⟨hn, rfl⟩

theorem processLine_some {fname : String} {base : Option String}
    {ccy line : String} {r : ClassifiedRow}
    (h : processLine fname base ccy line = some r) :
    ∃ lab num, lineSplit (pyStrip line.data) = some (lab, num) ∧
      normalize_label (String.mk lab) = some r.line_item ∧
      r.reporting_currency = ccy ∧
      r.amount = try_number (some (String.mk num)) := by
  rw [processLine] at h
  split at h
  · exact absurd h (by simp)
  · split at h
    · exact absurd h (by simp)
    · rename_i lab num hs
      split at h
      · exact absurd h (by simp)
      · rename_i f hn
        split at h
        · exact absurd h (by simp)
        · rename_i a ha
          simp only [Option.some.injEq] at h
          subst h
          exact ⟨lab, num, hs, hn, rfl, by rw [ha]⟩

/-- C1: every `ClassifiedRow` produced by the tabular extractor or the
text extractor has its `line_item` drawn from the fixed 36-entry
canonical list `FIXED_ROWS`; rows the classifier cannot map never appear
in either output. -/
theorem extractor_line_items_canonical :
    (∀ sheets fname base r, r ∈ extract_from_excel sheets fname base →
       r.line_item ∈ FIXED_ROWS) ∧
    (∀ text fname base r, r ∈ extract_from_text text fname base →
       r.line_item ∈ FIXED_ROWS) := by
  constructor
  · intro sheets fname base r hr
    simp only [extract_from_excel, List.mem_flatten, List.mem_map] at hr
    obtain ⟨_, ⟨sh, _, rfl⟩, hr⟩ := hr
    simp only [processSheet, List.mem_filterMap] at hr
    obtain ⟨row, _, hrow⟩ := hr
    exact normalize_label_mem (processExcelRow_some hrow).1
  · intro text fname base r hr
    simp only [extract_from_text, List.mem_filterMap] at hr
    obtain ⟨line, _, hline⟩ := hr
    obtain ⟨lab, num, _, hn, _, _⟩ := processLine_some hline
    exact normalize_label_mem hn

/-- C1 witness: a concrete one-sheet workbook whose single row is
classified, and a concrete text document, both yielding canonical line
items. -/
theorem extractor_line_items_canonical_witness :
    ({ company_name := "acme", fiscal_year := "", reporting_currency := ""
     , base_currency := "", line_item := "Revenue | Product"
     , amount := some 100 } : ClassifiedRow).line_item ∈ FIXED_ROWS ∧
    ({ company_name := "a", fiscal_year := "", reporting_currency := "USD"
     , base_currency := "USD", line_item := "Tax | Current"
     , amount := some 50 } : ClassifiedRow).line_item ∈ FIXED_ROWS :=
  ⟨extractor_line_items_canonical.1
      [⟨["Label", "Amount"], [[("Label", some "Sales"), ("Amount", some "100")]]⟩]
      "acme.xlsx" none _ (by decide),
   extractor_line_items_canonical.2 "taxes 50\ndollars" "a.pdf" none _
      (by decide)⟩

/-- C4: for every label string, the classifier returns the canonical item
of the first rule of the ordered list `LABEL_MAP` whose pattern matches
the lower-cased label, and `none` (unclassified) when no rule matches. -/
theorem classifier_first_match (label : String) :
    normalize_label label =
      (LABEL_MAP.find? (fun pr => searchBdry pr.1 (lowerL label.data))).map
        Prod.snd := by
  by_cases h : label = ""
  · subst h
    have hnone :
        (LABEL_MAP.find?
            (fun pr => searchBdry pr.1 (lowerL "".data))).map Prod.snd =
          none := by decide
    rw [normalize_label, if_pos rfl, hnone]
  · rw [normalize_label, if_neg h]
    exact firstMatch_eq_find? LABEL_MAP (lowerL label.data)

/-! ## Column selection (C5) -/

theorem findColFor_eq_find? (k : String) (cols : List String) :
    findColFor k cols =
      cols.find? (fun c => containsSub k.data (normCol c)) := by
  induction cols with
  | nil => rfl
  | cons c rest ih =>
      by_cases hc : containsSub k.data (normCol c)
      · rw [findColFor, if_pos hc]
        exact (@List.find?_cons_of_pos String
          (fun s => containsSub k.data (normCol s)) c rest hc).symm
      · rw [findColFor, if_neg hc, ih]
        exact (@List.find?_cons_of_neg String
          (fun s => containsSub k.data (normCol s)) c rest
          (by simpa using hc)).symm

/-- C5 counterexample: for the column list `["item", "label"]` and the
label-role synonym list, the code selects the column `"label"` (first
synonym wins, then first column containing it), not the first column in
column order containing any synonym, which is `"item"`. -/
theorem column_selection_counterexample :
    col_like ["item", "label"]
        ["label", "item", "intitul", "description", "account"] =
      some "label" ∧
    col_like_spec ["item", "label"]
        ["label", "item", "intitul", "description", "account"] =
      some "item" ∧
    some "label" ≠ some "item" := by decide

/-- C5 amended: for each semantic role, `col_like` iterates over the
role's synonym keys in order and returns, for the first key contained in
some normalised column name, the first such column in column order; the
role is absent exactly when no key is contained in any column name. -/
theorem column_selection_key_priority (cols keys : List String) :
    col_like cols keys =
      keys.findSome?
        (fun k => cols.find? (fun c => containsSub k.data (normCol c))) ∧
    (col_like cols keys = none ↔
      ∀ k ∈ keys, ∀ c ∈ cols, containsSub k.data (normCol c) = false) := by
  have heq : col_like cols keys =
      keys.findSome?
        (fun k => cols.find? (fun c => containsSub k.data (normCol c))) := by
    induction keys with
    | nil => rfl
    | cons k ks ih =>
        rw [col_like, findColFor_eq_find?, List.findSome?_cons]
        cases cols.find? (fun c => containsSub k.data (normCol c)) with
        | none => exact ih
        | some c => rfl
  refine ⟨heq, ?_⟩
  rw [heq, List.findSome?_eq_none_iff]
  constructor
  · intro h k hk c hc
    have := h k hk
    rw [List.find?_eq_none] at this
    simpa using this c hc
  · intro h k hk
    rw [List.find?_eq_none]
    intro c hc
    simp [h k hk c hc]

/-! ## Number parser (C6, C7) -/

/-- C6: the number parser sends `"(1,234.50)"` to `-1234.5`, `"1 234"`
(with a no-break space) to `1234`, and each of `"abc"`, `None` and `""`
to the not-a-number result. -/
theorem number_parser_examples :
    try_number (some "(1,234.50)") = some (-1234.5 : ℚ) ∧
    try_number (some "1 234") = some 1234 ∧
    try_number (some "abc") = none ∧
    try_number none = none ∧
    try_number (some "") = none := by
  refine ⟨?_, by decide, by decide, by decide, by decide⟩
  have h : try_number (some "(1,234.50)") = some (mkRat (-2469) 2) := by
    decide
  rw [h]
  congr 1
  rw [Rat.mkRat_eq_divInt, Rat.divInt_eq_div]
  norm_num

/-- C7 counterexample: the input `"(12\n)"` fails the claimed
nothing-else shape after separator stripping and parenthesis removal
(the remaining string is `12` followed by a newline), yet the parser
returns `-12` rather than not-a-number, because Python's `$` anchor in
`re.match(r"^-?\d+(\.\d+)?$", s)` also matches just before a single
trailing newline and `float` tolerates it. -/
theorem number_parser_total_counterexample :
    numShapeSpec (stripParens (stripSeps (pyStrip "(12\n)".data))) =
      false ∧
    try_number (some "(12\n)") = some (-12 : ℚ) := by decide

/-- C7 amended: the number parser is total — every input yields either a
number or the not-a-number result, never an exception — and every input
whose sanitised form fails the code's shape check (optional leading
minus, digits, optionally a decimal point and digits, optionally one
trailing newline accepted by the `$` anchor, and nothing else) yields
not-a-number. -/
theorem number_parser_total :
    (∀ x : Option String,
      (∃ q, try_number x = some q) ∨ try_number x = none) ∧
    (∀ s : String,
      numShape (stripParens (stripSeps (pyStrip s.data))) = false →
      try_number (some s) = none) := by
  constructor
  · intro x
    cases h : try_number x with
    | none => exact Or.inr rfl
    | some q => exact Or.inl ⟨q, rfl⟩
  · intro s hs
    rw [try_number]
    simp [parseNum, hs]

/-- C7 witness: the malformed input `"abc"` fails the shape check and is
sent to not-a-number. -/
theorem number_parser_total_witness :
    numShape (stripParens (stripSeps (pyStrip "abc".data))) = false ∧
    try_number (some "abc") = none :=
  ⟨by decide, number_parser_total.2 "abc" (by decide)⟩

/-! ## Scanner characterisations (C8) -/

theorem isPrefixOf_exists {w l : List Char} :
    w.isPrefixOf l = true ↔ ∃ t, l = w ++ t := by
  induction w generalizing l with
  | nil => simp [List.isPrefixOf]
  | cons a as ih =>
      cases l with
      | nil => simp [List.isPrefixOf]
      | cons b bs =>
          rw [List.isPrefixOf, Bool.and_eq_true, beq_iff_eq, ih]
          constructor
          · rintro ⟨rfl, t, rfl⟩
            exact ⟨t, rfl⟩
          · rintro ⟨t, ht⟩
            injection ht with h1 h2
            exact ⟨h1.symm, t, h2⟩

theorem containsSub_iff {w s : List Char} :
    containsSub w s = true ↔ SubOcc w s := by
  induction s with
  | nil =>
      rw [containsSub]
      constructor
      · intro h
        exact ⟨[], [], by simp_all [List.isEmpty_iff]⟩
      · rintro ⟨pre, post, h⟩
        have : pre = [] ∧ w = [] ∧ post = [] := by
          simpa using h.symm
        simp [List.isEmpty_iff, this.2.1]
  | cons c rest ih =>
      rw [containsSub, Bool.or_eq_true, ih]
      constructor
      · rintro (hp | ⟨pre, post, rfl⟩)
        · obtain ⟨t, ht⟩ := isPrefixOf_exists.mp hp
          exact ⟨[], t, by simpa using ht⟩
        · exact ⟨c :: pre, post, rfl⟩
      · rintro ⟨pre, post, heq⟩
        cases pre with
        | nil =>
            exact Or.inl (isPrefixOf_exists.mpr ⟨post, by simpa using heq⟩)
        | cons p pre' =>
            injection heq with h1 h2
            exact Or.inr ⟨pre', post, h2⟩

theorem getLast?_cons_some {α : Type} {a : α} {b : α} {l : List α}
    (h : l.getLast? = some b) : (a :: l).getLast? = some b := by
  cases l with
  | nil => simp at h
  | cons x xs => rw [List.getLast?_cons_cons]; exact h

theorem occLB_gen (w : List Char) :
    ∀ s prev, occLB w prev s = true ↔
      ∃ pre post, s = pre ++ (w ++ post) ∧
        ((pre = [] ∧ prevOkB prev = true) ∨
         ∃ c, pre.getLast? = some c ∧ isWordChar c = false) := by
  intro s
  induction s with
  | nil =>
      intro prev
      rw [occLB, Bool.and_eq_true]
      constructor
      · rintro ⟨hp, hw⟩
        refine ⟨[], [], ?_, Or.inl ⟨rfl, hp⟩⟩
        simp_all [List.isEmpty_iff]
      · rintro ⟨pre, post, heq, hcond⟩
        have h3 : pre = [] ∧ w = [] ∧ post = [] := by
          simpa using heq.symm
        refine ⟨?_, by simp [List.isEmpty_iff, h3.2.1]⟩
        rcases hcond with ⟨_, hp⟩ | ⟨c, hc, _⟩
        · exact hp
        · rw [h3.1] at hc; simp at hc
  | cons c rest ih =>
      intro prev
      rw [occLB, Bool.or_eq_true, Bool.and_eq_true, ih (some c)]
      constructor
      · rintro (⟨hp, hpre⟩ | ⟨pre', post, rfl, hcond⟩)
        · obtain ⟨t, ht⟩ := isPrefixOf_exists.mp hpre
          exact ⟨[], t, by simpa using ht, Or.inl ⟨rfl, hp⟩⟩
        · refine ⟨c :: pre', post, rfl, Or.inr ?_⟩
          rcases hcond with ⟨rfl, hp⟩ | ⟨d, hd, hw⟩
          · exact ⟨c, by simp, by simpa [prevOkB] using hp⟩
          · exact ⟨d, getLast?_cons_some hd, hw⟩
      · rintro ⟨pre, post, heq, hcond⟩
        cases pre with
        | nil =>
            rcases hcond with ⟨_, hp⟩ | ⟨d, hd, _⟩
            · exact Or.inl ⟨hp, isPrefixOf_exists.mpr ⟨post, by simpa using heq⟩⟩
            · simp at hd
        | cons p pre' =>
            injection heq with h1 h2
            subst h1
            refine Or.inr ⟨pre', post, h2, ?_⟩
            rcases hcond with ⟨habs, _⟩ | ⟨d, hd, hw⟩
            · exact absurd habs (by simp)
            · cases pre' with
              | nil =>
                  simp only [List.getLast?_singleton, Option.some.injEq] at hd
                  subst hd
                  exact Or.inl ⟨rfl, by simpa [prevOkB] using hw⟩
              | cons q pre'' =>
                  rw [List.getLast?_cons_cons] at hd
                  exact Or.inr ⟨d, hd, hw⟩

theorem occLB_iff {w s : List Char} :
    occLB w none s = true ↔ LeftBdryOcc w s := by
  rw [occLB_gen w s none, LeftBdryOcc]
  constructor
  · rintro ⟨pre, post, heq, hcond⟩
    refine ⟨pre, post, heq, ?_⟩
    intro c hc
    rcases hcond with ⟨rfl, _⟩ | ⟨d, hd, hw⟩
    · simp at hc
    · rw [hd] at hc
      simp only [Option.mem_def, Option.some.injEq] at hc
      exact hc ▸ hw
  · rintro ⟨pre, post, heq, hlast⟩
    refine ⟨pre, post, heq, ?_⟩
    cases hp : pre.getLast? with
    | none =>
        refine Or.inl ⟨?_, rfl⟩
        cases pre with
        | nil => rfl
        | cons x xs => simp [List.getLast?_eq_none_iff] at hp
    | some d => exact Or.inr ⟨d, rfl, hlast d (by simp [hp])⟩

theorem hasCharThenWord_iff {ch : Char} :
    ∀ {s : List Char}, hasCharThenWord ch s = true ↔ CharThenWord ch s := by
  intro s
  induction s with
  | nil =>
      rw [hasCharThenWord]
      constructor
      · intro h; exact absurd h (by simp)
      · rintro ⟨pre, d, post, heq, _⟩
        exact absurd heq.symm (by simp)
  | cons a t ih =>
      cases t with
      | nil =>
          rw [hasCharThenWord]
          constructor
          · intro h; exact absurd h (by simp)
          · rintro ⟨pre, d, post, heq, _⟩
            cases pre with
            | nil => simp at heq
            | cons p pre' =>
                injection heq with _ h2
                exact absurd h2.symm (by simp)
      | cons b rest =>
          rw [hasCharThenWord, Bool.or_eq_true, Bool.and_eq_true,
            beq_iff_eq, ih]
          constructor
          · rintro (⟨rfl, hw⟩ | ⟨pre, d, post, heq, hw⟩)
            · exact ⟨[], b, rest, rfl, hw⟩
            · exact ⟨a :: pre, d, post, by simp [heq], hw⟩
          · rintro ⟨pre, d, post, heq, hw⟩
            cases pre with
            | nil =>
                injection heq with h1 h2
                injection h2 with h3 h4
                subst h1; subst h3; subst h4
                exact Or.inl ⟨rfl, hw⟩
            | cons p pre' =>
                injection heq with h1 h2
                exact Or.inr ⟨pre', d, post, h2, hw⟩

theorem dollarHit_iff : ∀ {s : List Char},
    dollarHit s = true ↔ DollarOcc s := by
  intro s
  induction s with
  | nil =>
      rw [dollarHit]
      constructor
      · intro h; exact absurd h (by simp)
      · rintro ⟨pre, post, heq, _⟩
        exact absurd heq.symm (by simp)
  | cons c rest ih =>
      rw [dollarHit, Bool.or_eq_true, Bool.and_eq_true, ih]
      constructor
      · rintro (⟨hp, hsuf⟩ | ⟨pre, post, heq, hsuf⟩)
        · obtain ⟨t, ht⟩ := isPrefixOf_exists.mp hp
          refine ⟨[], t, by simpa using ht, ?_⟩
          rw [ht] at hsuf
          rwa [show (6 : Nat) = ("dollar".data).length from rfl,
            List.drop_left] at hsuf
        · exact ⟨c :: pre, post, by simp [heq], hsuf⟩
      · rintro ⟨pre, post, heq, hsuf⟩
        cases pre with
        | nil =>
            refine Or.inl ⟨isPrefixOf_exists.mpr ⟨post, by simpa using heq⟩, ?_⟩
            rw [show (c :: rest) = "dollar".data ++ post from by simpa using heq,
              show (6 : Nat) = ("dollar".data).length from rfl, List.drop_left]
            exact hsuf
        | cons p pre' =>
            injection heq with h1 h2
            exact Or.inr ⟨pre', post, h2, hsuf⟩

theorem usdHit_iff {low : List Char} :
    usdHit low = true ↔ UsdIndicated low := by
  rw [usdHit, UsdIndicated, Bool.or_eq_true, Bool.or_eq_true,
    Bool.or_eq_true, occLB_iff, containsSub_iff, dollarHit_iff]
  have hc : low.contains '$' = true ↔ '$' ∈ low := by
    rw [List.contains, List.elem_iff]
  rw [hc]
  tauto

theorem eurHit_iff {low : List Char} :
    eurHit low = true ↔ EurIndicated low := by
  rw [eurHit, EurIndicated, Bool.or_eq_true, occLB_iff, hasCharThenWord_iff]

theorem gbpHit_iff {low : List Char} :
    gbpHit low = true ↔ GbpIndicated low := by
  rw [gbpHit, GbpIndicated, Bool.or_eq_true, occLB_iff, hasCharThenWord_iff]

/-- C8 counterexample: the text `"XUSD"` contains the token `"USD"`, yet
the currency guess is empty — the branch `\bUSD` requires a word boundary
before `USD`, which the preceding `X` prevents, and no other branch
applies. -/
theorem currency_guess_counterexample :
    containsSub "USD".data "XUSD".data = true ∧
    rep_ccy "XUSD" = "" ∧ ("" : String) ≠ "USD" := by decide

/-- C8 amended: the guess is `USD` iff the lower-cased text contains
`usd` preceded by start-of-text or a non-word character, or `$` anywhere,
or `us$` anywhere, or `dollar`/`dollars` followed by a boundary;
otherwise `EUR` iff it contains `eur` left-bounded or `€` immediately
followed by a word character; otherwise `GBP` analogously; otherwise
empty — and this one guess is the `reporting_currency` of every row
emitted from the document. -/
theorem currency_guess_semantics (text : String) :
    (rep_ccy text = "USD" ↔ UsdIndicated (lowerL text.data)) ∧
    (rep_ccy text = "EUR" ↔
      ¬UsdIndicated (lowerL text.data) ∧ EurIndicated (lowerL text.data)) ∧
    (rep_ccy text = "GBP" ↔
      ¬UsdIndicated (lowerL text.data) ∧ ¬EurIndicated (lowerL text.data) ∧
        GbpIndicated (lowerL text.data)) ∧
    (rep_ccy text = "" ↔
      ¬UsdIndicated (lowerL text.data) ∧ ¬EurIndicated (lowerL text.data) ∧
        ¬GbpIndicated (lowerL text.data)) ∧
    (∀ fname base r, r ∈ extract_from_text text fname base →
      r.reporting_currency = rep_ccy text) := by
  have hrow : ∀ fname base r, r ∈ extract_from_text text fname base →
      r.reporting_currency = rep_ccy text := by
    intro fname base r hr
    simp only [extract_from_text, List.mem_filterMap] at hr
    obtain ⟨l, _, hline⟩ := hr
    obtain ⟨lab, num, _, _, hcur, _⟩ := processLine_some hline
    exact hcur
  by_cases hu : usdHit (lowerL text.data)
  · have hrep : rep_ccy text = "USD" := by
      simp only [rep_ccy]; rw [if_pos hu]
    rw [usdHit_iff] at hu
    rw [hrep] at hrow ⊢
    exact ⟨iff_of_true rfl hu,
           iff_of_false (by decide) (fun h => h.1 hu),
           iff_of_false (by decide) (fun h => h.1 hu),
           iff_of_false (by decide) (fun h => h.1 hu), hrow⟩
  · have hnu : ¬UsdIndicated (lowerL text.data) :=
      fun h => hu (usdHit_iff.mpr h)
    by_cases he : eurHit (lowerL text.data)
    · have hrep : rep_ccy text = "EUR" := by
        simp only [rep_ccy]; rw [if_neg hu, if_pos he]
      rw [eurHit_iff] at he
      rw [hrep] at hrow ⊢
      exact ⟨iff_of_false (by decide) hnu,
             iff_of_true rfl ⟨hnu, he⟩,
             iff_of_false (by decide) (fun h => h.2.1 he),
             iff_of_false (by decide) (fun h => h.2.1 he), hrow⟩
    · have hne : ¬EurIndicated (lowerL text.data) :=
        fun h => he (eurHit_iff.mpr h)
      by_cases hg : gbpHit (lowerL text.data)
      · have hrep : rep_ccy text = "GBP" := by
          simp only [rep_ccy]; rw [if_neg hu, if_neg he, if_pos hg]
        rw [gbpHit_iff] at hg
        rw [hrep] at hrow ⊢
        exact ⟨iff_of_false (by decide) hnu,
               iff_of_false (by decide) (fun h => hne h.2),
               iff_of_true rfl ⟨hnu, hne, hg⟩,
               iff_of_false (by decide) (fun h => h.2.2 hg), hrow⟩
      · have hng : ¬GbpIndicated (lowerL text.data) :=
          fun h => hg (gbpHit_iff.mpr h)
        have hrep : rep_ccy text = "" := by
          simp only [rep_ccy]; rw [if_neg hu, if_neg he, if_neg hg]
        rw [hrep] at hrow ⊢
        exact ⟨iff_of_false (by decide) hnu,
               iff_of_false (by decide) (fun h => hne h.2),
               iff_of_false (by decide) (fun h => hng h.2.2),
               iff_of_true rfl ⟨hnu, hne, hng⟩, hrow⟩

/-- C8 witness: a concrete document containing the token `dollars` whose
single classified row carries the guess `USD`. -/
theorem currency_guess_semantics_witness :
    ({ company_name := "a", fiscal_year := "", reporting_currency := "USD"
     , base_currency := "USD", line_item := "Revenue | Product"
     , amount := some 100 } : ClassifiedRow).reporting_currency =
      rep_ccy "sales 100\ndollars" :=
  (currency_guess_semantics "sales 100\ndollars").2.2.2.2 "a.pdf" none _
    (by decide)

/-! ## Malformed-amount behaviour (C9) -/

/-- C9: a row of a decoded table whose label classifies is always
emitted, with its amount the (possibly failed, hence absent) parse of
the amount cell; a text line whose label classifies but whose numeric
segment fails to parse is dropped entirely. -/
theorem malformed_amount_paths :
    (∀ fname base cl ca cy cc row f,
      normalize_label ((rGet row cl).getD "") = some f →
      ∃ r, processExcelRow fname base cl ca cy cc row = some r ∧
        r.amount = try_number (rGet row ca)) ∧
    (∀ fname base ccy line lab num,
      lineSplit (pyStrip line.data) = some (lab, num) →
      (normalize_label (String.mk lab)).isSome →
      try_number (some (String.mk num)) = none →
      processLine fname base ccy line = none) := by
  constructor
  · intro fname base cl ca cy cc row f hn
    have h : processExcelRow fname base cl ca cy cc row =
        some { company_name := stem fname
             , fiscal_year := match cy with
                 | none => ""
                 | some _ => (rGet row cy).getD ""
             , reporting_currency := match cc with
                 | none => ""
                 | some _ => (rGet row cc).getD ""
             , base_currency := resolveBase base
                 (match cc with
                  | none => ""
                  | some _ => (rGet row cc).getD "")
             , line_item := f
             , amount := try_number (rGet row ca) } := by
      rw [processExcelRow.eq_def, hn]
    exact ⟨_, h, rfl⟩
  · intro fname base ccy line lab num hs hn ha
    obtain ⟨f, hf⟩ := Option.isSome_iff_exists.mp hn
    have hne : ¬(pyStrip line.data).isEmpty = true := by
      intro h
      rw [List.isEmpty_iff] at h
      rw [h] at hs
      rw [show lineSplit ([] : List Char) = none from rfl] at hs
      exact Option.noConfusion hs
    simp [processLine, hne, hs, hf, ha]

/-- C9 witness: a table row with label `taxes` and amount `abc` is
emitted with an absent amount; the text line `taxes 1.2.3` is dropped. -/
theorem malformed_amount_paths_witness :
    (∃ r, processExcelRow "a.xlsx" none (some "Label") (some "Amount") none
        none [("Label", some "taxes"), ("Amount", some "abc")] = some r ∧
      r.amount = try_number
        (rGet [("Label", some "taxes"), ("Amount", some "abc")]
          (some "Amount"))) ∧
    processLine "a.pdf" none "" "taxes 1.2.3" = none :=
  ⟨malformed_amount_paths.1 "a.xlsx" none (some "Label") (some "Amount")
      none none _ "Tax | Current" (by decide),
   malformed_amount_paths.2 "a.pdf" none "" "taxes 1.2.3" "taxes".data
      "1.2.3".data (by decide) (by decide) (by decide)⟩

/-! ## Aggregator lemmas (C2, C3, C10) -/

theorem addToGroups_ne_nil_mem {gs : List (String × List ClassifiedRow)}
    {k : String} {r : ClassifiedRow}
    (hgs : ∀ g ∈ gs, g.2 ≠ []) :
    ∀ g ∈ addToGroups gs k r, g.2 ≠ [] := by
  induction gs with
  | nil =>
      intro g hg
      rw [addToGroups] at hg
      simp only [List.mem_singleton] at hg
      subst hg
      simp
  | cons g0 rest ih =>
      obtain ⟨k0, rs⟩ := g0
      intro g hg
      rw [addToGroups] at hg
      by_cases hk : k0 = k
      · rw [if_pos hk] at hg
        rcases List.mem_cons.mp hg with heq | hmem
        · subst heq; simp
        · exact hgs g (List.mem_cons_of_mem (k0, rs) hmem)
      · rw [if_neg hk] at hg
        rcases List.mem_cons.mp hg with heq | hmem
        · subst heq
          exact hgs (k0, rs) (List.mem_cons_self _ _)
        · exact ih (fun x hx => hgs x (List.mem_cons_of_mem (k0, rs) hx)) g hmem

theorem by_co_groups_ne (rows : List ClassifiedRow) :
    ∀ g ∈ by_co rows, g.2 ≠ [] := by
  have main : ∀ (l : List ClassifiedRow)
      (gs : List (String × List ClassifiedRow)),
      (∀ g ∈ gs, g.2 ≠ []) →
      ∀ g ∈ l.foldl (fun gs r => addToGroups gs (groupKey r) r) gs,
        g.2 ≠ [] := by
    intro l
    induction l with
    | nil => intro gs hgs; exact hgs
    | cons r rest ih =>
        intro gs hgs
        rw [List.foldl_cons]
        exact ih _ (addToGroups_ne_nil_mem hgs)
  exact main rows [] (by simp)

/-- C2: for every non-empty row set, the per-company report of every
company present contains exactly 36 rows, one per canonical item, in the
fixed canonical order of `FIXED_ROWS`, and this report is the company's
sheet in the written workbook. -/
theorem aggregator_fixed_shape (rows : List ClassifiedRow)
    (_hrows : rows ≠ []) (c : String) (items : List ClassifiedRow)
    (hmem : (c, items) ∈ by_co rows) :
    (companySheet items).length = 36 ∧
    (companySheet items).map (fun o => o.line_item) = FIXED_ROWS ∧
    (sanitizeSheetName c, companySheet items) ∈ write_workbook rows := by
  have hitems : items ≠ [] := by_co_groups_ne rows (c, items) hmem
  obtain ⟨meta, rest, rfl⟩ := List.exists_cons_of_ne_nil hitems
  refine ⟨?_, ?_, ?_⟩
  · rw [companySheet, List.length_map]
    rfl
  · rw [companySheet, List.map_map]
    rw [show ((fun o => o.line_item) ∘ outRowFor meta (meta :: rest)) = id
      from funext fun line => rfl]
    exact List.map_id FIXED_ROWS
  · have hne2 : by_co rows ≠ [] := List.ne_nil_of_mem hmem
    obtain ⟨g, gs, hby⟩ := List.exists_cons_of_ne_nil hne2
    rw [write_workbook.eq_def, hby]
    rw [hby] at hmem
    exact List.mem_map.mpr ⟨(c, meta :: rest), hmem, rfl⟩

theorem total_rev_eq_sum (items : List ClassifiedRow) :
    total_rev items =
      ((items.filter (fun i => "Revenue".data.isPrefixOf i.line_item.data)).map
        (fun i => i.amount.getD 0)).sum := by
  induction items with
  | nil => rfl
  | cons i rest ih =>
      rw [total_rev, ratAdd_eq_add, ih]
      by_cases h : "Revenue".data.isPrefixOf i.line_item.data
      · have hf : List.filter (fun i => "Revenue".data.isPrefixOf i.line_item.data)
            (i :: rest) =
            i :: List.filter (fun i => "Revenue".data.isPrefixOf i.line_item.data)
              rest := by
          simp [List.filter_cons, h]
        rw [hf, List.map_cons, List.sum_cons, if_pos h]
      · have hf : List.filter (fun i => "Revenue".data.isPrefixOf i.line_item.data)
            (i :: rest) =
            List.filter (fun i => "Revenue".data.isPrefixOf i.line_item.data)
              rest := by
          simp [List.filter_cons, h]
        rw [hf, if_neg h, zero_add]

theorem lookupGet_dictInsert (d : List (String × ClassifiedRow))
    (k : String) (v : ClassifiedRow) (q : String) :
    lookupGet (dictInsert d k v) q =
      if q = k then some v else lookupGet d q := by
  induction d with
  | nil =>
      by_cases h : q = k
      · subst h
        simp [dictInsert, lookupGet]
      · have hb : (k == q) = false := by
          rw [beq_eq_false_iff_ne]
          exact fun hh => h hh.symm
        simp [dictInsert, lookupGet, hb, h]
  | cons hd tl ih =>
      rw [dictInsert]
      by_cases hk : hd.1 = k
      · rw [if_pos hk]
        by_cases h : q = k
        · subst h
          have hb : (hd.1 == q) = true := beq_iff_eq.mpr hk
          simp [lookupGet, List.find?_cons, hb]
        · have hb : (hd.1 == q) = false := by
            rw [beq_eq_false_iff_ne, hk]
            exact fun hh => h hh.symm
          simp [lookupGet, List.find?_cons, hb, h]
      · rw [if_neg hk]
        by_cases hb : (hd.1 == q) = true
        · have hqk : ¬q = k := fun habs => hk (habs ▸ beq_iff_eq.mp hb)
          simp [lookupGet, List.find?_cons, hb, hqk]
        · have hb' : (hd.1 == q) = false := by
            cases hx : (hd.1 == q)
            · rfl
            · exact absurd hx hb
          simp only [lookupGet, List.find?_cons, hb']
          have hih := ih
          simp only [lookupGet] at hih
          simp [hih, hb']

theorem buildLookup_last (items : List ClassifiedRow) (k : String) :
    lookupGet (buildLookup items) k =
      (items.filter (fun i => i.line_item == k)).getLast? := by
  have main : ∀ (l : List ClassifiedRow)
      (d : List (String × ClassifiedRow)),
      lookupGet (l.foldl (fun d i => dictInsert d i.line_item i) d) k =
        match (l.filter (fun i => i.line_item == k)).getLast? with
        | some i => some i
        | none => lookupGet d k := by
    intro l
    induction l with
    | nil => intro d; rfl
    | cons i rest ih =>
        intro d
        rw [List.foldl_cons, ih, lookupGet_dictInsert]
        by_cases hi : (i.line_item == k) = true
        · have hf : List.filter (fun i => i.line_item == k) (i :: rest) =
              i :: List.filter (fun i => i.line_item == k) rest := by
            simp [List.filter_cons, hi]
          rw [hf]
          cases hr : (rest.filter (fun i => i.line_item == k)).getLast? with
          | some j => rw [getLast?_cons_some hr]
          | none =>
              rw [List.getLast?_eq_none_iff.mp hr]
              simp [beq_iff_eq.mp hi]
        · have hf : List.filter (fun i => i.line_item == k) (i :: rest) =
              List.filter (fun i => i.line_item == k) rest := by
            simp only [List.filter_cons]
            rw [if_neg hi]
          rw [hf]
          have hki : ¬ k = i.line_item := by
            simp only [beq_iff_eq] at hi
            exact fun hh => hi hh.symm
          cases hr : (rest.filter (fun i => i.line_item == k)).getLast? with
          | some j => rfl
          | none => rw [if_neg hki]
  have h := main items []
  rw [buildLookup, h]
  cases hr : (items.filter (fun i => i.line_item == k)).getLast? with
  | some j => rfl
  | none => rfl

/-- C3: per company, `total_rev` is the sum of the amounts of the rows
whose `line_item` starts with `"Revenue"`, missing amounts counting as
zero; and every output row's `percent_of_revenue` is `amount /
total_rev` when its amount is present and `total_rev` is non-zero, and
blank otherwise. -/
theorem revenue_total_and_percent (items : List ClassifiedRow) :
    total_rev items =
      ((items.filter (fun i => "Revenue".data.isPrefixOf i.line_item.data)).map
        (fun i => i.amount.getD 0)).sum ∧
    ∀ o ∈ companySheet items,
      o.percent_of_revenue =
        match o.amount with
        | some a =>
            if total_rev items = 0 then none
            else some (a / total_rev items)
        | none => none := by
  refine ⟨total_rev_eq_sum items, ?_⟩
  intro o ho
  cases items with
  | nil => rw [companySheet] at ho; exact absurd ho (by simp)
  | cons meta rest =>
      rw [companySheet] at ho
      obtain ⟨line, _, rfl⟩ := List.mem_map.mp ho
      cases hamt : (lookupGet (buildLookup (meta :: rest)) line).bind
          (fun i => i.amount) with
      | none => simp [outRowFor, hamt]
      | some a =>
          by_cases htr : total_rev (meta :: rest) = 0
          · simp [outRowFor, hamt, htr]
          · simp [outRowFor, hamt, htr, ratDiv_eq_div]

/-- C10: the aggregator's lookup keeps, for each canonical item, the last
row of the company's iteration order with that item — so the displayed
amount is the last duplicate's amount — while `total_rev` sums over all
rows of the company, duplicates included. -/
theorem duplicate_collapse (items : List ClassifiedRow) (line : String)
    (meta : ClassifiedRow) :
    lookupGet (buildLookup items) line =
      (items.filter (fun i => i.line_item == line)).getLast? ∧
    (outRowFor meta items line).amount =
      ((items.filter (fun i => i.line_item == line)).getLast?).bind
        (fun i => i.amount) ∧
    total_rev items =
      ((items.filter (fun i => "Revenue".data.isPrefixOf i.line_item.data)).map
        (fun i => i.amount.getD 0)).sum := by
  refine ⟨buildLookup_last items line, ?_, total_rev_eq_sum items⟩
  show (lookupGet (buildLookup items) line).bind (fun i => i.amount) = _
  rw [buildLookup_last items line]

/-- C2 witness: a single-row company produces a 36-row sheet in the
canonical order, present in the written workbook. -/
theorem aggregator_fixed_shape_witness :
    (companySheet [c2row]).length = 36 ∧
    (companySheet [c2row]).map (fun o => o.line_item) = FIXED_ROWS ∧
    (sanitizeSheetName "acme", companySheet [c2row]) ∈
      write_workbook [c2row] :=
  aggregator_fixed_shape [c2row] (by decide) "acme" [c2row] (by decide)

/-- C3 witness: with total revenue 1000 and a Depreciation amount of 250,
the output percent is 250/1000. -/
theorem revenue_total_and_percent_witness :
    (outRowFor c3rev [c3rev, c3dep] "Depreciation").percent_of_revenue =
      match (outRowFor c3rev [c3rev, c3dep] "Depreciation").amount with
      | some a =>
          if total_rev [c3rev, c3dep] = 0 then none
          else some (a / total_rev [c3rev, c3dep])
      | none => none :=
  (revenue_total_and_percent [c3rev, c3dep]).2 _ (by decide)

end CostBench
